import Mathlib

/-!
Verification of the Article Store and Workflow Engine (`src/server.py`).

The Python source is shallowly embedded as pure Lean functions:

* document bodies and all text processing work on `String` / `List Char`
  (Python `str.split`, `str.startswith`, `re.search(r'^# (.+)$', …, MULTILINE)`
  and `str.strip()` are modelled character by character);
* the on-disk drafts directory (`DRAFTS_DIR`) becomes an association list
  from article id to file content, in directory enumeration order;
* the in-memory metadata dictionary (`article_metadata`) becomes a function
  `String → Option MetaRec`; the lock only serialises access and has no
  observable effect in a sequential model;
* HTTP error responses become `Except.error` values carrying the message the
  handler sends; an uncaught Python exception (the `ValueError` raised by
  `datetime.replace` for an out-of-range day) is likewise modelled as an
  `Except.error` value, with the state changes performed before the raise
  kept, since the handler has no `try`/`except` around the loop;
* `datetime` values are a record of calendar fields; `isoformat()[:16]`
  becomes `isoMinute`; the day difference `(d1 - d2).days` used by the
  notifications endpoint is floor division of the difference in seconds by
  86400, so that engine is modelled over timestamps in seconds.
-/

/-- The six ASCII whitespace characters recognised by Python's `str.split()`
and `str.strip()` (Python additionally treats some Unicode spaces as
whitespace; no claim involves those). -/
def pyIsSpace (c : Char) : Bool :=
  c == ' ' || c == '\t' || c == '\n' || c == '\r' || c == '\x0B' || c == '\x0C'

/-- Test for the newline character, the separator of `content.split('\n')`. -/
def isNL (c : Char) : Bool := c == '\n'

/-- Python `str.split(sep)` for a one-character separator, on character lists:
splits at every separator character and keeps empty pieces, so the result
always has one piece more than the number of separator occurrences. -/
def splitOnPCh (p : Char → Bool) : List Char → List (List Char)
  | [] => [[]]
  | c :: cs =>
    if p c then [] :: splitOnPCh p cs
    else
      match splitOnPCh p cs with
      | [] => [[c]]
      | h :: t => (c :: h) :: t

/-- The lines of a document body, as produced by Python `content.split('\n')`. -/
def linesOf (s : String) : List (List Char) := splitOnPCh isNL s.data

/-- Python `line.startswith('# ')`: the predicate `save_article` uses to drop
existing top-level heading lines before prepending the new title. -/
def startsHash : List Char → Bool
  | '#' :: ' ' :: _ => true
  | _ => false

/-- A line matched by the regex `^# (.+)$` of `extract_title`: it must start
with `'# '` and have at least one further character on the line. -/
def isHeadingB : List Char → Bool
  | '#' :: ' ' :: _ :: _ => true
  | _ => false

/-- Python `str.strip()` restricted to ASCII whitespace: drop whitespace from
both ends. -/
def pyStripL (l : List Char) : List Char :=
  ((l.dropWhile pyIsSpace).reverse.dropWhile pyIsSpace).reverse

/-- `extract_title` from `src/server.py`: `re.search(r'^# (.+)$', content,
re.MULTILINE)` finds the first line that starts with `'# '` followed by at
least one character; the match group is everything after the marker on that
line, and the source applies `.strip()` to it.  No match gives `"Untitled"`. -/
def extract_title (s : String) : String :=
  match (linesOf s).find? isHeadingB with
  | some ℓ => ⟨pyStripL (ℓ.drop 2)⟩
  | none => "Untitled"

/-- The title the spec sentence literally describes: the text following the
marker of the first heading line, without the `.strip()` the source applies.
Used to compare the claim's wording with `extract_title`. -/
def deriveTitle_claim (s : String) : String :=
  match (linesOf s).find? isHeadingB with
  | some ℓ => ⟨ℓ.drop 2⟩
  | none => "Untitled"

/-- `count_words` from `src/server.py`: `len(content.split())`, the number of
pieces between whitespace characters that are non-empty. -/
def count_words (s : String) : Nat :=
  ((splitOnPCh pyIsSpace s.data).filter (fun t => !t.isEmpty)).length

/-- Greedy tokenizer: scan the text once, accumulating the current word and
emitting it when whitespace (or the end) is reached.  Its output is the list
of maximal whitespace-separated non-empty tokens, the notion the spec uses
to describe the word count. -/
def wsTokensAux (acc : List Char) : List Char → List (List Char)
  | [] => if acc.isEmpty then [] else [acc.reverse]
  | c :: cs =>
    if pyIsSpace c then
      if acc.isEmpty then wsTokensAux [] cs else acc.reverse :: wsTokensAux [] cs
    else wsTokensAux (c :: acc) cs

/-- The maximal whitespace-separated non-empty tokens of a text. -/
def wsTokens (l : List Char) : List (List Char) := wsTokensAux [] l

/-- Python `'\n'.join(lines)`. -/
def joinNL : List (List Char) → List Char
  | [] => []
  | [ℓ] => ℓ
  | ℓ :: ℓ' :: rest => ℓ ++ '\n' :: joinNL (ℓ' :: rest)

/-- The title-rewriting step inlined in `save_article`: drop every line that
starts with `'# '`, then prepend `f"# {title}\n\n"` to the newline-join of
the remaining lines. -/
def rewriteTitle (content title : String) : String :=
  ⟨'#' :: ' ' :: (title.data ++ '\n' :: '\n' ::
    joinNL ((linesOf content).filter (fun ℓ => !startsHash ℓ)))⟩

/-- A metadata record of the overlay: the mutable workflow fields kept in the
`article_metadata` dictionary. -/
structure MetaRec where
  status : String
  publishDate : Option String
  sources : List String
  wordGoal : Int
deriving DecidableEq

/-- The defaults synthesized by `load_article_metadata` for an unknown id. -/
def defaultMeta : MetaRec :=
  { status := ("draft"), publishDate := none, sources := [], wordGoal := 1000 }

/-- The in-memory metadata overlay (`article_metadata`). -/
abbrev Overlay := String → Option MetaRec

/-- `save_article_metadata`: store a record wholesale. -/
def saveMeta (id : String) (r : MetaRec) (ov : Overlay) : Overlay :=
  fun x => if x = id then some r else ov x

/-- `load_article_metadata`: return the stored record, or synthesize the
defaults, store them, and return them.  The source returns a `.copy()`;
records are immutable values here, so the copy is the record itself. -/
def loadMeta (id : String) (ov : Overlay) : MetaRec × Overlay :=
  match ov id with
  | some r => (r, ov)
  | none => (defaultMeta, saveMeta id defaultMeta ov)

/-- The merged article view returned by `get_article_info`. -/
structure Article where
  id : String
  title : String
  wordCount : Nat
  status : String
  publishDate : Option String
  sources : List String
  wordGoal : Int
  content : String
deriving DecidableEq

/-- Association-list lookup, modelling `filepath.exists()` plus reading. -/
def alookup : List (String × α) → String → Option α
  | [], _ => none
  | (k, v) :: rest, id => if k = id then some v else alookup rest id

/-- Association-list store, modelling `filepath.write_text`. -/
def aupdate : List (String × α) → String → α → List (String × α)
  | [], id, v => [(id, v)]
  | (k, w) :: rest, id, v =>
    if k = id then (id, v) :: rest else (k, w) :: aupdate rest id v

/-- Association-list removal, modelling `filepath.unlink`. -/
def aremove : List (String × α) → String → List (String × α)
  | [], _ => []
  | (k, w) :: rest, id =>
    if k = id then aremove rest id else (k, w) :: aremove rest id

/-- The whole observable server state: the drafts directory (id ↦ file
content) and the metadata overlay. -/
structure ServerState where
  files : List (String × String)
  meta : Overlay

/-- The empty overlay: a freshly started process. -/
def emptyOverlay : Overlay := fun _ => none

/-- A freshly started process over an empty drafts directory. -/
def emptyState : ServerState := { files := [], meta := emptyOverlay }

/-- `get_article_info`: read the file (missing file means empty content),
load (and possibly synthesize) the metadata, and merge.  `title` and
`wordCount` fall back to `"Untitled"` and `0` when the content is empty,
mirroring `extract_title(content) if content else "Untitled"`. -/
def get_article_info (id : String) (content? : Option String) (ov : Overlay) :
    Article × Overlay :=
  let content := content?.getD ("")
  let lm := loadMeta id ov
  ({ id := id,
     title := if content = "" then ("Untitled") else extract_title content,
     wordCount := if content = "" then 0 else count_words content,
     status := lm.1.status,
     publishDate := lm.1.publishDate,
     sources := lm.1.sources,
     wordGoal := lm.1.wordGoal,
     content := content }, lm.2)

/-- `get_article`: `None` when no file exists for the id, regardless of the
overlay; otherwise the merged view (whose metadata load can synthesize a
record, an observable state change). -/
def get_article (id : String) (st : ServerState) : Option Article × ServerState :=
  match alookup st.files id with
  | none => (none, st)
  | some c =>
    let r := get_article_info id (some c) st.meta
    (some r.1, { files := st.files, meta := r.2 })

/-- The loop of `list_articles`: build one summary per stored file, in
order, threading the overlay (each `get_article_info` call loads metadata
for the listed id). -/
def listGo : List (String × String) → Overlay → List Article × Overlay
  | [], ov => ([], ov)
  | fp :: rest, ov =>
    let g := get_article_info fp.1 (some fp.2) ov
    let r := listGo rest g.2
    (g.1 :: r.1, r.2)

/-- `list_articles`: walk every file of the drafts directory and build the
summaries.  The summaries drop the `content` field in the source; nothing
here depends on that projection. -/
def list_articles (st : ServerState) : List Article × ServerState :=
  let r := listGo st.files st.meta
  (r.1, { files := st.files, meta := r.2 })

/-- `save_article`: write the (possibly title-rewritten) content when one is
supplied — `if title:` is a Python truthiness test, so an empty title is
ignored — then apply each supplied metadata field to the loaded record,
store it, and return the freshly merged view. -/
def save_article (id : String) (title content status : Option String)
    (sources : Option (List String)) (publishDate : Option String)
    (wordGoal : Option Int) (st : ServerState) : Article × ServerState :=
  let files1 := match content with
    | none => st.files
    | some c =>
      let c' := match title with
        | some t => if t = "" then c else rewriteTitle c t
        | none => c
      aupdate st.files id c'
  let lm := loadMeta id st.meta
  let md' : MetaRec :=
    { status := status.getD lm.1.status,
      publishDate := match publishDate with
        | some p => some p
        | none => lm.1.publishDate,
      sources := sources.getD lm.1.sources,
      wordGoal := wordGoal.getD lm.1.wordGoal }
  let ov2 := saveMeta id md' lm.2
  let g := get_article_info id (alookup files1 id) ov2
  (g.1, { files := files1, meta := g.2 })

/-- The fixed status set of the status-change endpoint. -/
def validStatuses : List String :=
  [("draft"), ("review"), ("scheduled"), ("published")]

/-- The `/status` POST handler: reject a status outside the fixed set before
touching any state; otherwise set the status and — only for a truthy
(non-`None`, non-empty) `publishDate` — also the publish date.  The response
echoes the requested status and the supplied `publishDate` value. -/
def set_status (id : String) (newStatus publishDate : Option String)
    (st : ServerState) : Except String (String × Option String) × ServerState :=
  match newStatus with
  | none => (Except.error ("Invalid status"), st)
  | some s =>
    if validStatuses.contains s then
      let lm := loadMeta id st.meta
      let md' := { lm.1 with
        status := s,
        publishDate := match publishDate with
          | some p => if p = "" then lm.1.publishDate else some p
          | none => lm.1.publishDate }
      (Except.ok (s, publishDate), { files := st.files, meta := saveMeta id md' lm.2 })
    else (Except.error ("Invalid status"), st)

/-- The `/schedule` POST handler: unconditionally store the supplied publish
date (even an absent one) and force the status to `scheduled`. -/
def schedule_article (id : String) (publishDate : Option String)
    (st : ServerState) : ServerState :=
  let lm := loadMeta id st.meta
  { files := st.files,
    meta := saveMeta id { lm.1 with publishDate := publishDate, status := ("scheduled") } lm.2 }

/-- The DELETE handler: when the file exists, unlink it and pop the metadata
record; when it does not, answer with a 404 error and touch nothing. -/
def delete_article (id : String) (st : ServerState) :
    Except String Unit × ServerState :=
  match alookup st.files id with
  | some _ =>
    (Except.ok (),
     { files := aremove st.files id,
       meta := fun x => if x = id then none else st.meta x })
  | none => (Except.error ("Article not found"), st)

/-- A `datetime` value as handled by `datetime.fromisoformat` and
`datetime.replace`: plain calendar fields (microseconds are dropped by the
minute truncation and never observed). -/
structure PyDateTime where
  year : Nat
  month : Nat
  day : Nat
  hour : Nat
  minute : Nat
  second : Nat
deriving DecidableEq

/-- Gregorian leap-year rule, as implemented by Python's `datetime`. -/
def isLeap (y : Nat) : Prop := (y % 4 = 0 ∧ y % 100 ≠ 0) ∨ y % 400 = 0

instance (y : Nat) : Decidable (isLeap y) := by unfold isLeap; infer_instance

/-- The number of days of a month, the bound `datetime.replace` checks the
`day` argument against. -/
def daysInMonth (y m : Nat) : Nat :=
  if m = 2 then (if isLeap y then 29 else 28)
  else if m = 4 ∨ m = 6 ∨ m = 9 ∨ m = 11 then 30
  else 31

/-- `currentDate.replace(day = newDay)`: only the day field changes, and a
day outside the month's valid range raises `ValueError` (modelled as
`none`). -/
def replaceDay (d : PyDateTime) (newDay : Int) : Option PyDateTime :=
  if 1 ≤ newDay ∧ newDay ≤ (daysInMonth d.year d.month : Int) then
    some { d with day := newDay.toNat }
  else none

/-- Advance the day-of-month field by `k`, leaving every other field alone —
what a successful naive increment chain produces. -/
def dayPlus (d : PyDateTime) (k : Nat) : PyDateTime := { d with day := d.day + k }

/-- Two-digit zero-padded decimal, as `isoformat` prints months, days, hours
and minutes. -/
def pad2 (n : Nat) : String := if n < 10 then ("0") ++ toString n else toString n

/-- Four-digit zero-padded decimal, as `isoformat` prints years. -/
def pad4 (n : Nat) : String :=
  if n < 10 then ("000") ++ toString n
  else if n < 100 then ("00") ++ toString n
  else if n < 1000 then ("0") ++ toString n
  else toString n

/-- `currentDate.isoformat()[:16]`: the first sixteen characters of the ISO
rendering, i.e. `YYYY-MM-DDTHH:MM` — truncation to minute precision. -/
def isoMinute (d : PyDateTime) : String :=
  pad4 d.year ++ ("-") ++ pad2 d.month ++ ("-") ++ pad2 d.day ++ ("T") ++
    pad2 d.hour ++ (":") ++ pad2 d.minute

/-- The loop body of the bulk-schedule handler: for each id in order, format
the current date to minute precision, store status `scheduled` and that
publish date, record the pair, and advance the date by
`replace(day = day + intervalDays)`.  A failing increment raises out of the
handler: the results are lost (`none`) but the metadata writes performed so
far remain. -/
def bulkGo : List String → PyDateTime → Int → Overlay →
    Option (List (String × String)) × Overlay
  | [], _, _, ov => (some [], ov)
  | id :: rest, cur, i, ov =>
    let pd := isoMinute cur
    let lm := loadMeta id ov
    let ov2 := saveMeta id { lm.1 with status := ("scheduled"), publishDate := some pd } lm.2
    match replaceDay cur ((cur.day : Int) + i) with
    | none => (none, ov2)
    | some cur2 =>
      match bulkGo rest cur2 i ov2 with
      | (none, ov3) => (none, ov3)
      | (some rs, ov3) => (some ((id, pd) :: rs), ov3)

/-- The `/api/bulk-schedule` handler.  An empty id list or an absent start
date is rejected up front; otherwise the loop runs.  `startDate` arrives
already parsed (`datetime.fromisoformat`); an absent or empty string is the
falsy case the handler rejects.  The uncaught `ValueError` of a naive
increment past the end of the month is the second error case. -/
def bulkSchedule (ids : List String) (startDate : Option PyDateTime) (i : Int)
    (ov : Overlay) : Except String (List (String × String)) × Overlay :=
  match startDate with
  | none => (Except.error ("Articles and start date required"), ov)
  | some d =>
    if ids = [] then (Except.error ("Articles and start date required"), ov)
    else
      match bulkGo ids d i ov with
      | (some rs, ov2) => (Except.ok rs, ov2)
      | (none, ov2) => (Except.error ("day is out of range for month"), ov2)

/-- The inputs of the notifications scan: an article summary's title and its
parsed publish date.  The source stores dates as ISO strings and re-parses
them here; the arithmetic only sees the parsed value, modelled as a
timestamp in seconds (a falsy or absent publish date is `none`). -/
structure ArticleView where
  title : String
  publishDate : Option Int
deriving DecidableEq

/-- One reminder object produced by the notifications endpoint: its `type` is
always `"reminder"`, `subtype` is the human heading, and the article's title
and publish date are echoed. -/
structure Notification where
  kind : String
  subtype : String
  article : String
  date : Int
deriving DecidableEq

/-- `(publishDate - now).days`: Python `timedelta.days` is the floor of the
total difference over whole days, i.e. floor division of the difference in
seconds by 86400. -/
def daysUntil (pub now : Int) : Int := (pub - now).fdiv 86400

/-- The notifications scan: for every article with a truthy publish date,
emit exactly one reminder when the whole-day difference is exactly 1
(`"Publishing Tomorrow"`) or exactly 7 (`"Publishing in 1 Week"`), and
nothing otherwise. -/
def notifications : List ArticleView → Int → List Notification
  | [], _ => []
  | a :: rest, now =>
    match a.publishDate with
    | none => notifications rest now
    | some p =>
      if daysUntil p now = 1 then
        { kind := ("reminder"), subtype := ("Publishing Tomorrow"),
          article := a.title, date := p } :: notifications rest now
      else if daysUntil p now = 7 then
        { kind := ("reminder"), subtype := ("Publishing in 1 Week"),
          article := a.title, date := p } :: notifications rest now
      else notifications rest now

/-- The operations of the core, as invoked by the transport layer.  Used to
state process-lifetime invariants over arbitrary operation sequences. -/
inductive Op where
  | getOp (id : String)
  | saveOp (id : String) (title content status : Option String)
      (sources : Option (List String)) (publishDate : Option String)
      (wordGoal : Option Int)
  | setStatusOp (id : String) (status publishDate : Option String)
  | scheduleOp (id : String) (publishDate : Option String)
  | bulkOp (ids : List String) (startDate : Option PyDateTime) (intervalDays : Int)
  | listOp
  | deleteOp (id : String)
deriving DecidableEq

/-- The state transition of one operation (responses are discarded). -/
def applyOp (o : Op) (st : ServerState) : ServerState :=
  match o with
  | .getOp id => (get_article id st).2
  | .saveOp id t c s src pd wg => (save_article id t c s src pd wg st).2
  | .setStatusOp id s pd => (set_status id s pd st).2
  | .scheduleOp id pd => schedule_article id pd st
  | .bulkOp ids d i => { files := st.files, meta := (bulkSchedule ids d i st.meta).2 }
  | .listOp => (list_articles st).2
  | .deleteOp id => (delete_article id st).2

/-- Run a sequence of operations. -/
def runOps (ops : List Op) (st : ServerState) : ServerState :=
  ops.foldl (fun s o => applyOp o s) st

/-- Concrete state for the delete counterexample: no document file, but a
metadata record for id `"a"` already synthesized in the overlay. -/
def stMetaOnly : ServerState :=
  { files := [],
    meta := fun x => if x = ("a") then
      some { status := ("review"), publishDate := none, sources := [], wordGoal := 500 }
      else none }

/-- Concrete state with one stored document, used by witnesses. -/
def stOneFile : ServerState :=
  { files := [(("a"), ("# Hi\n\nBody"))], meta := emptyOverlay }

/-! ## Helper lemmas about the character-level splitters -/

theorem splitOnPCh_ne_nil (p : Char → Bool) (l : List Char) :
    splitOnPCh p l ≠ [] := by
  cases l with
  | nil => simp [splitOnPCh]
  | cons c cs =>
    simp only [splitOnPCh]
    split
    · simp
    · split <;> simp

theorem splitOnPCh_cons_pos (p : Char → Bool) (c : Char) (cs : List Char)
    (h : p c = true) : splitOnPCh p (c :: cs) = [] :: splitOnPCh p cs := by
  simp [splitOnPCh, h]

theorem splitOnPCh_cons_neg (p : Char → Bool) (c : Char) (cs : List Char)
    (h' : List Char) (t : List (List Char)) (h : p c = false)
    (hs : splitOnPCh p cs = h' :: t) :
    splitOnPCh p (c :: cs) = (c :: h') :: t := by
  simp [splitOnPCh, h, hs]

theorem splitOnPCh_no_p (p : Char → Bool) :
    ∀ l : List Char, (∀ c ∈ l, p c = false) → splitOnPCh p l = [l] := by
  intro l
  induction l with
  | nil => intro _; rfl
  | cons c cs ih =>
    intro hl
    have hc : p c = false := hl c (List.mem_cons_self c cs)
    have hcs : splitOnPCh p cs = [cs] := ih (fun x hx => hl x (List.mem_cons_of_mem c hx))
    exact splitOnPCh_cons_neg p c cs cs [] hc hcs

theorem splitOnPCh_append (p : Char → Bool) :
    ∀ (xs : List Char) (c : Char) (ys : List Char),
      (∀ x ∈ xs, p x = false) → p c = true →
      splitOnPCh p (xs ++ c :: ys) = xs :: splitOnPCh p ys := by
  intro xs
  induction xs with
  | nil =>
    intro c ys _ hc
    simpa using splitOnPCh_cons_pos p c ys hc
  | cons x xs' ih =>
    intro c ys hxs hc
    have hx : p x = false := hxs x (List.mem_cons_self x xs')
    have htail := ih c ys (fun z hz => hxs z (List.mem_cons_of_mem x hz)) hc
    simpa using splitOnPCh_cons_neg p x (xs' ++ c :: ys) xs' (splitOnPCh p ys) hx htail

theorem splitOnPCh_mem_no_p (p : Char → Bool) :
    ∀ (l : List Char) (chunk : List Char), chunk ∈ splitOnPCh p l →
      ∀ c ∈ chunk, p c = false := by
  intro l
  induction l with
  | nil =>
    intro chunk hm c hc
    simp [splitOnPCh] at hm
    subst hm
    simp at hc
  | cons x xs ih =>
    intro chunk hm c hc
    cases hx : p x with
    | true =>
      rw [splitOnPCh_cons_pos p x xs hx] at hm
      rcases List.mem_cons.mp hm with h0 | h1
      · subst h0; simp at hc
      · exact ih chunk h1 c hc
    | false =>
      cases hxs : splitOnPCh p xs with
      | nil => exact absurd hxs (splitOnPCh_ne_nil _ _)
      | cons h' t =>
        rw [splitOnPCh_cons_neg p x xs h' t hx hxs] at hm
        rcases List.mem_cons.mp hm with h0 | h1
        · subst h0
          rcases List.mem_cons.mp hc with h2 | h3
          · subst h2; exact hx
          · exact ih h' (hxs ▸ List.mem_cons_self h' t) c h3
        · exact ih chunk (hxs ▸ List.mem_cons_of_mem h' h1) c hc

theorem splitOnPCh_joinNL :
    ∀ lls : List (List Char), lls ≠ [] →
      (∀ ℓ ∈ lls, ∀ c ∈ ℓ, isNL c = false) →
      splitOnPCh isNL (joinNL lls) = lls := by
  intro lls
  induction lls with
  | nil => intro h; exact absurd rfl h
  | cons a rest ih =>
    intro _ hno
    cases rest with
    | nil =>
      show splitOnPCh isNL (joinNL [a]) = [a]
      exact splitOnPCh_no_p isNL a (hno a (List.mem_cons_self a []))
    | cons b rest' =>
      have hjoin : joinNL (a :: b :: rest') = a ++ '\n' :: joinNL (b :: rest') := rfl
      rw [hjoin, splitOnPCh_append isNL a '\n' (joinNL (b :: rest'))
            (fun x hx => hno a (List.mem_cons_self a (b :: rest')) x hx) (by decide)]
      rw [ih (by simp) (fun ℓ hℓ c hc => hno ℓ (List.mem_cons_of_mem a hℓ) c hc)]

theorem find?_first {α : Type} (p : α → Bool) :
    ∀ (l : List α) (i : Nat) (a : α),
      l.get? i = some a → p a = true →
      (∀ j, j < i → ∀ b, l.get? j = some b → p b = false) →
      l.find? p = some a := by
  intro l
  induction l with
  | nil => intro i a hget; simp at hget
  | cons x l' ih =>
    intro i a hget hp hfirst
    cases i with
    | zero =>
      simp at hget
      subst hget
      exact List.find?_cons_of_pos l' hp
    | succ i' =>
      have hx : p x = false := hfirst 0 (Nat.succ_pos i') x rfl
      rw [List.find?_cons_of_neg l' (by simp [hx])]
      exact ih i' a hget hp (fun j hj b hb => hfirst (j + 1) (Nat.succ_lt_succ hj) b hb)

theorem wsTokensAux_eq :
    ∀ (l acc h : List Char) (t : List (List Char)),
      splitOnPCh pyIsSpace l = h :: t →
      wsTokensAux acc l = ((acc.reverse ++ h) :: t).filter (fun x => !x.isEmpty) := by
  intro l
  induction l with
  | nil =>
    intro acc h t hs
    simp only [splitOnPCh, List.cons.injEq] at hs
    obtain ⟨rfl, rfl⟩ := hs
    cases acc with
    | nil => simp [wsTokensAux]
    | cons a as => simp [wsTokensAux]
  | cons c cs ih =>
    intro acc h t hs
    have step : wsTokensAux acc (c :: cs) =
        if pyIsSpace c then
          (if acc.isEmpty then wsTokensAux [] cs else acc.reverse :: wsTokensAux [] cs)
        else wsTokensAux (c :: acc) cs := rfl
    cases hcs : splitOnPCh pyIsSpace cs with
    | nil => exact absurd hcs (splitOnPCh_ne_nil _ _)
    | cons h' t' =>
      cases hc : pyIsSpace c with
      | true =>
        rw [splitOnPCh_cons_pos pyIsSpace c cs hc, hcs] at hs
        injection hs with hs1 hs2
        subst hs1
        subst hs2
        have hrec := ih [] h' t' hcs
        rw [step, if_pos hc]
        cases acc with
        | nil =>
          rw [if_pos (show ([] : List Char).isEmpty = true from rfl), hrec]
          simp [List.filter]
        | cons a as =>
          rw [if_neg (by simp), hrec]
          have hne : (as.reverse ++ [a]).isEmpty = false := by
            simp [List.isEmpty_iff]
          simp [List.filter, hne]
      | false =>
        rw [splitOnPCh_cons_neg pyIsSpace c cs h' t' hc hcs] at hs
        injection hs with hs1 hs2
        subst hs1
        subst hs2
        have hrec := ih (c :: acc) h' t' hcs
        rw [step, if_neg (by simp [hc]), hrec]
        simp [List.filter]

/-! ## C7: title derivation -/

/-- C7 counterexample: for the body `"# hi \nx"` the text following the
heading marker on the first matching line is `"hi "`, but the code applies
`.strip()` and returns `"hi"`, so the title is not the raw text following
the marker. -/
theorem extract_title_strip_counterexample :
    extract_title ("# hi \nx") = "hi"
  ∧ deriveTitle_claim ("# hi \nx") = "hi "
  ∧ ("hi" : String) ≠ "hi " := by decide

/-- C7 (amended): for every body, the derived title is the
whitespace-trimmed text following the marker of the first line that starts
with `'# '` followed by at least one character; `"Untitled"` when no such
line exists (in particular for the empty body).  Only the first matching
line counts. -/
theorem extract_title_spec : ∀ s : String,
    ((∀ ℓ ∈ linesOf s, isHeadingB ℓ = false) → extract_title s = "Untitled")
  ∧ (∀ (i : Nat) (ℓ : List Char),
      (linesOf s).get? i = some ℓ → isHeadingB ℓ = true →
      (∀ j, j < i → ∀ ℓ', (linesOf s).get? j = some ℓ' → isHeadingB ℓ' = false) →
      extract_title s = ⟨pyStripL (ℓ.drop 2)⟩) := by
  intro s
  constructor
  · intro hnone
    have hfind : (linesOf s).find? isHeadingB = none :=
      List.find?_eq_none.mpr (fun x hx => by simp [hnone x hx])
    unfold extract_title
    rw [hfind]
  · intro i ℓ hget hp hfirst
    unfold extract_title
    rw [find?_first isHeadingB (linesOf s) i ℓ hget hp hfirst]

/-- C7 witness: a body with text before the heading and two heading lines;
the first heading line wins and its text is returned trimmed. -/
theorem extract_title_spec_witness :
    extract_title ("text\n# One\n# Two") = "One" := by
  have h := (extract_title_spec ("text\n# One\n# Two")).2 1
    ['#', ' ', 'O', 'n', 'e'] (by decide) (by decide)
    (by
      intro j hj ℓ' hg
      have hj0 : j = 0 := by omega
      subst hj0
      have h0 : (linesOf ("text\n# One\n# Two")).get? 0 = some ['t', 'e', 'x', 't'] := by
        decide
      rw [h0] at hg
      injection hg with hg1
      subst hg1
      decide)
  rw [h]
  decide

/-! ## C8: word count -/

/-- C8: the word count is the number of maximal whitespace-separated
non-empty tokens of the whole body, heading lines included; for the body
`"# Hello\n\nWorld"` the tokens are `"#"`, `"Hello"`, `"World"`, so the
count is 3, while the derived title is `"Hello"`. -/
theorem count_words_spec :
    (∀ s : String, count_words s = (wsTokens s.data).length)
  ∧ count_words ("# Hello\n\nWorld") = 3
  ∧ extract_title ("# Hello\n\nWorld") = "Hello"
  ∧ (splitOnPCh pyIsSpace ("# Hello\n\nWorld").data).filter (fun t => !t.isEmpty)
      = [['#'], ['H', 'e', 'l', 'l', 'o'], ['W', 'o', 'r', 'l', 'd']] := by
  refine ⟨?_, by decide, by decide, by decide⟩
  intro s
  cases hs : splitOnPCh pyIsSpace s.data with
  | nil => exact absurd hs (splitOnPCh_ne_nil _ _)
  | cons h t =>
    unfold count_words wsTokens
    rw [hs, wsTokensAux_eq s.data [] h t hs]
    simp

/-! ## Helper lemmas about the overlay and the file store -/

theorem saveMeta_self (id : String) (r : MetaRec) (ov : Overlay) :
    saveMeta id r ov id = some r := by
  simp [saveMeta]

theorem saveMeta_other (id x : String) (r : MetaRec) (ov : Overlay) (h : x ≠ id) :
    saveMeta id r ov x = ov x := by
  simp [saveMeta, h]

theorem loadMeta_of_some (id : String) (ov : Overlay) (r : MetaRec)
    (h : ov id = some r) : loadMeta id ov = (r, ov) := by
  simp [loadMeta, h]

theorem loadMeta_of_none (id : String) (ov : Overlay) (h : ov id = none) :
    loadMeta id ov = (defaultMeta, saveMeta id defaultMeta ov) := by
  simp [loadMeta, h]

theorem loadMeta_after_save (id : String) (r : MetaRec) (ov : Overlay) :
    loadMeta id (saveMeta id r ov) = (r, saveMeta id r ov) :=
  loadMeta_of_some id _ r (saveMeta_self id r ov)

theorem loadMeta_keeps (id x : String) (ov : Overlay) (r : MetaRec)
    (h : ov x = some r) : (loadMeta id ov).2 x = some r := by
  cases hid : ov id with
  | some r' => rw [loadMeta_of_some id ov r' hid]; exact h
  | none =>
    rw [loadMeta_of_none id ov hid]
    by_cases hx : x = id
    · subst hx; rw [h] at hid; cases hid
    · show saveMeta id defaultMeta ov x = some r
      rw [saveMeta_other id x defaultMeta ov hx]
      exact h

theorem alookup_aupdate_self {α : Type} (l : List (String × α)) (id : String) (v : α) :
    alookup (aupdate l id v) id = some v := by
  induction l with
  | nil => simp [aupdate, alookup]
  | cons p rest ih =>
    obtain ⟨k, w⟩ := p
    by_cases hk : k = id
    · subst hk; simp [aupdate, alookup]
    · simp [aupdate, alookup, hk, ih]

theorem alookup_aremove_self {α : Type} (l : List (String × α)) (id : String) :
    alookup (aremove l id) id = none := by
  induction l with
  | nil => simp [aremove, alookup]
  | cons p rest ih =>
    obtain ⟨k, w⟩ := p
    by_cases hk : k = id
    · subst hk; simp [aremove, ih]
    · simp [aremove, alookup, hk, ih]

/-! ## C2: delete -/

/-- C2 counterexample: with a metadata record for id `"a"` in the overlay
but no document file, delete answers with the 404 error and the metadata
record is NOT evicted — contradicting the claim that delete does not fail
when only one of the two exists and always evicts the record. -/
theorem delete_missing_document_counterexample :
    (delete_article ("a") stMetaOnly).1 = Except.error ("Article not found")
  ∧ (delete_article ("a") stMetaOnly).2.meta ("a")
      = some { status := ("review"), publishDate := none, sources := [], wordGoal := 500 }
  ∧ stMetaOnly.meta ("a")
      = some { status := ("review"), publishDate := none, sources := [], wordGoal := 500 } := by
  refine ⟨rfl, by decide, by decide⟩

/-- C2 (amended): delete removes the document file and evicts the metadata
record exactly when a document exists, reporting success; on an id with no
document it fails with a NotFound error and leaves the state — any
metadata-only record included — untouched; in both cases a subsequent get
returns absent. -/
theorem delete_article_spec :
    ∀ (id : String) (st : ServerState),
      ((∃ c, alookup st.files id = some c) →
          (delete_article id st).1 = Except.ok ()
        ∧ alookup (delete_article id st).2.files id = none
        ∧ (delete_article id st).2.meta id = none)
    ∧ (alookup st.files id = none →
          (delete_article id st).1 = Except.error ("Article not found")
        ∧ (delete_article id st).2 = st)
    ∧ (get_article id (delete_article id st).2).1 = none := by
  intro id st
  cases hf : alookup st.files id with
  | some c =>
    refine ⟨fun _ => ⟨?_, ?_, ?_⟩, ⟨fun hn => by simp at hn, ?_⟩⟩
    · simp [delete_article, hf]
    · simp [delete_article, hf, alookup_aremove_self]
    · simp [delete_article, hf]
    · simp [delete_article, hf, get_article, alookup_aremove_self]
  | none =>
    refine ⟨fun hc => ?_, ⟨fun _ => ⟨?_, ?_⟩, ?_⟩⟩
    · obtain ⟨c, hc⟩ := hc
      simp at hc
    · simp [delete_article, hf]
    · simp [delete_article, hf]
    · simp [delete_article, hf, get_article]

/-- C2 witness: deleting an existing document succeeds, removes the file,
evicts the metadata record, and a subsequent get is absent. -/
theorem delete_article_spec_witness :
    ((delete_article ("a") stOneFile).1 = Except.ok ()
      ∧ alookup (delete_article ("a") stOneFile).2.files ("a") = none
      ∧ (delete_article ("a") stOneFile).2.meta ("a") = none)
  ∧ (get_article ("a") (delete_article ("a") stOneFile).2).1 = none :=
  ⟨(delete_article_spec ("a") stOneFile).1 ⟨("# Hi\n\nBody"), by decide⟩,
   (delete_article_spec ("a") stOneFile).2.2⟩

/-! ## C3: setStatus -/

/-- C3: setStatus fails with InvalidStatus exactly when the requested status
is outside the fixed set; on failure the whole state — in particular the
prior metadata record — is untouched; on success it stores the record with
the new status, updating publishDate only when a non-empty value was
supplied, and never clearing an existing publishDate. -/
theorem set_status_spec :
    (∀ (id s : String) (pd : Option String) (st : ServerState),
        validStatuses.contains s = false →
        set_status id (some s) pd st = (Except.error ("Invalid status"), st))
  ∧ (∀ (id s : String) (pd : Option String) (st : ServerState),
        validStatuses.contains s = true →
          (set_status id (some s) pd st).1 = Except.ok (s, pd)
        ∧ (set_status id (some s) pd st).2.files = st.files
        ∧ (set_status id (some s) pd st).2.meta id = some
            { (loadMeta id st.meta).1 with
              status := s,
              publishDate := match pd with
                | some p => if p = "" then (loadMeta id st.meta).1.publishDate else some p
                | none => (loadMeta id st.meta).1.publishDate })
  ∧ (∀ (id s : String) (pd : Option String) (st : ServerState) (q : String),
        validStatuses.contains s = true →
        (loadMeta id st.meta).1.publishDate = some q →
        ∃ q' r, (set_status id (some s) pd st).2.meta id = some r
          ∧ r.publishDate = some q') := by
  refine ⟨?_, ?_, ?_⟩
  · intro id s pd st h
    have hmem : s ∉ validStatuses := by simpa using h
    simp [set_status, hmem]
  · intro id s pd st h
    have hmem : s ∈ validStatuses := by simpa using h
    refine ⟨by simp [set_status, hmem], by simp [set_status, hmem], ?_⟩
    simp [set_status, hmem, saveMeta_self]
  · intro id s pd st q hs hq
    have hmem : s ∈ validStatuses := by simpa using hs
    have h2 : (set_status id (some s) pd st).2.meta id = some
        { (loadMeta id st.meta).1 with
          status := s,
          publishDate := match pd with
            | some p => if p = "" then (loadMeta id st.meta).1.publishDate else some p
            | none => (loadMeta id st.meta).1.publishDate } := by
      simp [set_status, hmem, saveMeta_self]
    cases pd with
    | none => exact ⟨q, _, h2, by simp [hq]⟩
    | some p =>
      by_cases hp : p = ""
      · subst hp
        exact ⟨q, _, h2, by simp [hq]⟩
      · exact ⟨p, _, h2, by simp [hp]⟩

/-- C3 witness: `setStatus("x", "bogus")` fails with the invalid-status
error and leaves the (empty) state untouched; `setStatus("x", "review")`
succeeds and stores the new status over the synthesized defaults. -/
theorem set_status_spec_witness :
    set_status ("x") (some ("bogus")) none emptyState
      = (Except.error ("Invalid status"), emptyState)
  ∧ (set_status ("x") (some ("review")) none emptyState).2.meta ("x")
      = some { status := ("review"), publishDate := none, sources := [], wordGoal := 1000 } := by
  constructor
  · exact set_status_spec.1 ("x") ("bogus") none emptyState (by decide)
  · rw [(set_status_spec.2.1 ("x") ("review") none emptyState (by decide)).2.2]
    decide

/-! ## C4: partial update in save -/

/-- C4: save applies exactly the supplied fields — with the body omitted the
file store is untouched; status, sources, publishDate and wordGoal are
applied unconditionally when supplied (no validation against the status
set) and left unchanged when omitted; in particular any status string
whatsoever is stored verbatim. -/
theorem save_article_partial_update :
    ∀ (id : String) (content status : Option String)
      (sources : Option (List String)) (pd : Option String) (wg : Option Int)
      (st : ServerState),
      (save_article id none content status sources pd wg st).2.files
          = (match content with
             | none => st.files
             | some c => aupdate st.files id c)
    ∧ (save_article id none content status sources pd wg st).2.meta id = some
        { status := status.getD (loadMeta id st.meta).1.status,
          publishDate := match pd with
            | some p => some p
            | none => (loadMeta id st.meta).1.publishDate,
          sources := sources.getD (loadMeta id st.meta).1.sources,
          wordGoal := wg.getD (loadMeta id st.meta).1.wordGoal }
    ∧ ∀ s : String, ∃ r,
        (save_article id none none (some s) none none none st).2.meta id = some r
        ∧ r.status = s := by
  intro id content status sources pd wg st
  refine ⟨?_, ?_, ?_⟩
  · cases content <;> simp [save_article]
  · simp [save_article, get_article_info, loadMeta_after_save, saveMeta_self]
  · intro s
    refine ⟨{ status := s,
              publishDate := (loadMeta id st.meta).1.publishDate,
              sources := (loadMeta id st.meta).1.sources,
              wordGoal := (loadMeta id st.meta).1.wordGoal }, ?_, rfl⟩
    simp [save_article, get_article_info, loadMeta_after_save, saveMeta_self]

/-! ## C10: save with no body for an unknown id -/

/-- C10: for an id with no document file, save with the body omitted creates
no file but does store a metadata record; the returned view has empty
content, title `"Untitled"` and word count 0; and a subsequent get still
returns absent, because presence is decided solely by the file's
existence. -/
theorem save_without_body_spec :
    ∀ (id : String) (status : Option String) (sources : Option (List String))
      (pd : Option String) (wg : Option Int) (st : ServerState),
      alookup st.files id = none →
        alookup (save_article id none none status sources pd wg st).2.files id = none
      ∧ (∃ r, (save_article id none none status sources pd wg st).2.meta id = some r)
      ∧ (save_article id none none status sources pd wg st).1.content = ""
      ∧ (save_article id none none status sources pd wg st).1.title = "Untitled"
      ∧ (save_article id none none status sources pd wg st).1.wordCount = 0
      ∧ (get_article id (save_article id none none status sources pd wg st).2).1 = none := by
  intro id status sources pd wg st hf
  refine ⟨?_, ?_, ?_, ?_, ?_, ?_⟩
  · simpa [save_article] using hf
  · refine ⟨{ status := status.getD (loadMeta id st.meta).1.status,
              publishDate := match pd with
                | some p => some p
                | none => (loadMeta id st.meta).1.publishDate,
              sources := sources.getD (loadMeta id st.meta).1.sources,
              wordGoal := wg.getD (loadMeta id st.meta).1.wordGoal }, ?_⟩
    simp [save_article, get_article_info, loadMeta_after_save, saveMeta_self]
  · simp [save_article, get_article_info, hf]
  · simp [save_article, get_article_info, hf]
  · simp [save_article, get_article_info, hf]
  · simp [save_article, get_article, hf]

/-- C10 witness: a fresh id on the empty state. -/
theorem save_without_body_spec_witness :
    alookup (save_article ("ghost") none none none none none none emptyState).2.files ("ghost") = none
  ∧ (∃ r, (save_article ("ghost") none none none none none none emptyState).2.meta ("ghost") = some r)
  ∧ (save_article ("ghost") none none none none none none emptyState).1.content = ""
  ∧ (save_article ("ghost") none none none none none none emptyState).1.title = "Untitled"
  ∧ (save_article ("ghost") none none none none none none emptyState).1.wordCount = 0
  ∧ (get_article ("ghost") (save_article ("ghost") none none none none none none emptyState).2).1 = none :=
  save_without_body_spec ("ghost") none none none none emptyState rfl

/-! ## C9: overlay retention -/

theorem loadMeta_other (id x : String) (ov : Overlay) (h : x ≠ id) :
    (loadMeta id ov).2 x = ov x := by
  cases hid : ov id with
  | some r => rw [loadMeta_of_some id ov r hid]
  | none =>
    rw [loadMeta_of_none id ov hid]
    show saveMeta id defaultMeta ov x = ov x
    exact saveMeta_other id x defaultMeta ov h

theorem get_article_info_snd (id : String) (c? : Option String) (ov : Overlay) :
    (get_article_info id c? ov).2 = (loadMeta id ov).2 := rfl

theorem save_article_meta (j : String) (t c s : Option String)
    (src : Option (List String)) (pd : Option String) (wg : Option Int)
    (st : ServerState) :
    (save_article j t c s src pd wg st).2.meta =
      saveMeta j
        { status := s.getD (loadMeta j st.meta).1.status,
          publishDate := match pd with
            | some p => some p
            | none => (loadMeta j st.meta).1.publishDate,
          sources := src.getD (loadMeta j st.meta).1.sources,
          wordGoal := wg.getD (loadMeta j st.meta).1.wordGoal }
        (loadMeta j st.meta).2 := by
  simp [save_article, get_article_info, loadMeta_after_save]

theorem bulkGo_snd (id : String) (rest : List String) (cur : PyDateTime)
    (i : Int) (ov : Overlay) :
    (bulkGo (id :: rest) cur i ov).2 =
      match replaceDay cur ((cur.day : Int) + i) with
      | none =>
        saveMeta id
          { (loadMeta id ov).1 with
            status := ("scheduled"),
            publishDate := some (isoMinute cur) } (loadMeta id ov).2
      | some cur2 =>
        (bulkGo rest cur2 i
          (saveMeta id
            { (loadMeta id ov).1 with
              status := ("scheduled"),
              publishDate := some (isoMinute cur) } (loadMeta id ov).2)).2 := by
  cases hrd : replaceDay cur ((cur.day : Int) + i) with
  | none => simp [bulkGo, hrd]
  | some cur2 =>
    simp only [bulkGo, hrd]
    cases hb : bulkGo rest cur2 i
        (saveMeta id
          { (loadMeta id ov).1 with
            status := ("scheduled"),
            publishDate := some (isoMinute cur) } (loadMeta id ov).2) with
    | mk o ov3 => cases o <;> simp

theorem bulkGo_keeps :
    ∀ (ids : List String) (cur : PyDateTime) (i : Int) (ov : Overlay)
      (x : String) (r : MetaRec),
      ov x = some r → ∃ r', (bulkGo ids cur i ov).2 x = some r' := by
  intro ids
  induction ids with
  | nil => exact fun cur i ov x r h => ⟨r, h⟩
  | cons id rest ih =>
    intro cur i ov x r h
    have hstep : ∃ r2,
        saveMeta id
          { (loadMeta id ov).1 with
            status := ("scheduled"),
            publishDate := some (isoMinute cur) } (loadMeta id ov).2 x = some r2 := by
      by_cases hx : x = id
      · subst hx
        exact ⟨_, saveMeta_self _ _ _⟩
      · rw [saveMeta_other _ _ _ _ hx]
        exact ⟨r, loadMeta_keeps id x ov r h⟩
    obtain ⟨r2, hr2⟩ := hstep
    rw [bulkGo_snd]
    cases hrd : replaceDay cur ((cur.day : Int) + i) with
    | none => exact ⟨r2, hr2⟩
    | some cur2 => exact ih cur2 i _ x r2 hr2

theorem listGo_keeps :
    ∀ (fps : List (String × String)) (ov : Overlay) (x : String) (r : MetaRec),
      ov x = some r → ∃ r', (listGo fps ov).2 x = some r' := by
  intro fps
  induction fps with
  | nil => exact fun ov x r h => ⟨r, h⟩
  | cons fp rest ih =>
    intro ov x r h
    have h1 : (get_article_info fp.1 (some fp.2) ov).2 x = some r := by
      rw [get_article_info_snd]
      exact loadMeta_keeps fp.1 x ov r h
    obtain ⟨r', hr'⟩ := ih (get_article_info fp.1 (some fp.2) ov).2 x r h1
    exact ⟨r', hr'⟩

theorem applyOp_pres :
    ∀ (o : Op) (st : ServerState) (id : String) (r : MetaRec),
      st.meta id = some r → o ≠ Op.deleteOp id →
      ∃ r', (applyOp o st).meta id = some r' := by
  intro o st id r h hne
  cases o with
  | getOp j =>
    show ∃ r', (get_article j st).2.meta id = some r'
    cases hf : alookup st.files j with
    | none => exact ⟨r, by simp [get_article, hf, h]⟩
    | some c =>
      refine ⟨r, ?_⟩
      simp only [get_article, hf]
      show (get_article_info j (some c) st.meta).2 id = some r
      rw [get_article_info_snd]
      exact loadMeta_keeps j id st.meta r h
  | saveOp j t c s src pd wg =>
    show ∃ r', (save_article j t c s src pd wg st).2.meta id = some r'
    rw [save_article_meta]
    by_cases hx : id = j
    · subst hx
      exact ⟨_, saveMeta_self _ _ _⟩
    · rw [saveMeta_other _ _ _ _ hx]
      exact ⟨r, loadMeta_keeps j id st.meta r h⟩
  | setStatusOp j s pd =>
    show ∃ r', (set_status j s pd st).2.meta id = some r'
    cases s with
    | none => exact ⟨r, h⟩
    | some sv =>
      by_cases hv : sv ∈ validStatuses
      · by_cases hx : id = j
        · subst hx
          cases pd with
          | none =>
            exact ⟨{ (loadMeta id st.meta).1 with
                     status := sv,
                     publishDate := (loadMeta id st.meta).1.publishDate },
                   by simp [set_status, hv, saveMeta_self]⟩
          | some p =>
            exact ⟨{ (loadMeta id st.meta).1 with
                     status := sv,
                     publishDate := if p = "" then (loadMeta id st.meta).1.publishDate else some p },
                   by simp [set_status, hv, saveMeta_self]⟩
        · refine ⟨r, ?_⟩
          have hred : (set_status j (some sv) pd st).2.meta id
              = (loadMeta j st.meta).2 id := by
            simp [set_status, hv, saveMeta_other _ _ _ _ hx]
          rw [hred]
          exact loadMeta_keeps j id st.meta r h
      · refine ⟨r, ?_⟩
        have hred : (set_status j (some sv) pd st).2.meta id = st.meta id := by
          simp [set_status, hv]
        rw [hred]
        exact h
  | scheduleOp j pd =>
    show ∃ r', (schedule_article j pd st).meta id = some r'
    by_cases hx : id = j
    · subst hx
      exact ⟨{ (loadMeta id st.meta).1 with
               publishDate := pd,
               status := ("scheduled") },
             by simp [schedule_article, saveMeta_self]⟩
    · refine ⟨r, ?_⟩
      have hred : (schedule_article j pd st).meta id = (loadMeta j st.meta).2 id := by
        simp [schedule_article, saveMeta_other _ _ _ _ hx]
      rw [hred]
      exact loadMeta_keeps j id st.meta r h
  | bulkOp ids d i =>
    show ∃ r', (bulkSchedule ids d i st.meta).2 id = some r'
    cases d with
    | none => exact ⟨r, h⟩
    | some dd =>
      by_cases hids : ids = []
      · subst hids
        exact ⟨r, by simp [bulkSchedule]; exact h⟩
      · have hsnd : (bulkSchedule ids (some dd) i st.meta).2 = (bulkGo ids dd i st.meta).2 := by
          simp only [bulkSchedule, if_neg hids]
          cases hb : bulkGo ids dd i st.meta with
          | mk o ov2 => cases o <;> simp
        rw [hsnd]
        exact bulkGo_keeps ids dd i st.meta id r h
  | listOp =>
    show ∃ r', (listGo st.files st.meta).2 id = some r'
    exact listGo_keeps st.files st.meta id r h
  | deleteOp j =>
    have hj : id ≠ j := fun hh => hne (by rw [hh])
    show ∃ r', (delete_article j st).2.meta id = some r'
    cases hf : alookup st.files j with
    | none => exact ⟨r, by simp [delete_article, hf, h]⟩
    | some c => exact ⟨r, by simp [delete_article, hf, hj, h]⟩

theorem runOps_pres :
    ∀ (ops : List Op) (st : ServerState) (id : String) (r : MetaRec),
      st.meta id = some r → Op.deleteOp id ∉ ops →
      ∃ r', (runOps ops st).meta id = some r' := by
  intro ops
  induction ops with
  | nil => exact fun st id r h _ => ⟨r, h⟩
  | cons o rest ih =>
    intro st id r h hno
    have ho : o ≠ Op.deleteOp id := fun hh => hno (hh ▸ List.mem_cons_self o rest)
    obtain ⟨r1, h1⟩ := applyOp_pres o st id r h ho
    have hrest : Op.deleteOp id ∉ rest := fun hh => hno (List.mem_cons_of_mem o hh)
    obtain ⟨r2, h2⟩ := ih (applyOp o st) id r1 h1 hrest
    exact ⟨r2, by simpa [runOps] using h2⟩

/-- C9: the first metadata access for an id synthesizes and stores the
default record (draft status, no publish date, no sources, word goal 1000);
and once a metadata record exists for an id, it is still present after any
sequence of operations (get, save, setStatus, schedule, bulkSchedule, list,
and deletes of other ids) that contains no delete of that id. -/
theorem metadata_overlay_retention :
    (∀ (id : String) (ov : Overlay), ov id = none →
        (loadMeta id ov).1 = defaultMeta ∧ (loadMeta id ov).2 id = some defaultMeta)
  ∧ (∀ (ops : List Op) (st : ServerState) (id : String) (r : MetaRec),
        st.meta id = some r → Op.deleteOp id ∉ ops →
        ∃ r', (runOps ops st).meta id = some r') := by
  constructor
  · intro id ov h
    rw [loadMeta_of_none id ov h]
    exact ⟨rfl, saveMeta_self id defaultMeta ov⟩
  · exact runOps_pres

/-- C9 witness: the first read of an unknown id stores the defaults, and a
record survives a status change, a listing and a delete of a different id. -/
theorem metadata_overlay_retention_witness :
    ((loadMeta ("z") emptyOverlay).1 = defaultMeta
      ∧ (loadMeta ("z") emptyOverlay).2 ("z") = some defaultMeta)
  ∧ ∃ r', (runOps [Op.setStatusOp ("a") (some ("review")) none, Op.listOp,
      Op.deleteOp ("b")] stMetaOnly).meta ("a") = some r' :=
  ⟨metadata_overlay_retention.1 ("z") emptyOverlay rfl,
   metadata_overlay_retention.2
     [Op.setStatusOp ("a") (some ("review")) none, Op.listOp, Op.deleteOp ("b")]
     stMetaOnly ("a")
     { status := ("review"), publishDate := none, sources := [], wordGoal := 500 }
     (by decide) (by decide)⟩

/-! ## C5: reminders -/

/-- C5: the notifications scan is a per-article filter — for every article
with a non-absent publish date the whole-day floor difference is computed,
one reminder of subtype `"Publishing Tomorrow"` is emitted exactly when it
equals 1 and one of subtype `"Publishing in 1 Week"` exactly when it equals
7, and no reminder otherwise (negative and all other differences included);
an article publishing exactly one day from now is reported as publishing
tomorrow, one publishing exactly two days from now is not reported, one
publishing exactly seven days from now is reported for the one-week
horizon. -/
theorem notifications_spec :
    (∀ (arts : List ArticleView) (now : Int),
        notifications arts now = arts.filterMap (fun a =>
          match a.publishDate with
          | none => none
          | some p =>
            if daysUntil p now = 1 then
              some { kind := ("reminder"), subtype := ("Publishing Tomorrow"),
                     article := a.title, date := p }
            else if daysUntil p now = 7 then
              some { kind := ("reminder"), subtype := ("Publishing in 1 Week"),
                     article := a.title, date := p }
            else none))
  ∧ (∀ (now : Int) (T : String),
        notifications [{ title := T, publishDate := some (now + 86400) }] now
          = [{ kind := ("reminder"), subtype := ("Publishing Tomorrow"),
               article := T, date := now + 86400 }])
  ∧ (∀ (now : Int) (T : String),
        daysUntil (now + 2 * 86400) now = 2
      ∧ notifications [{ title := T, publishDate := some (now + 2 * 86400) }] now = [])
  ∧ (∀ (now : Int) (T : String),
        notifications [{ title := T, publishDate := some (now + 7 * 86400) }] now
          = [{ kind := ("reminder"), subtype := ("Publishing in 1 Week"),
               article := T, date := now + 7 * 86400 }]) := by
  have hday : ∀ (now : Int) (k : Int), daysUntil (now + k * 86400) now = k := by
    intro now k
    unfold daysUntil
    have h1 : now + k * 86400 - now = k * 86400 := by ring
    rw [h1]
    rw [Int.mul_fdiv_cancel k (by decide)]
  refine ⟨?_, ?_, ?_, ?_⟩
  · intro arts now
    induction arts with
    | nil => rfl
    | cons a rest ih =>
      cases hp : a.publishDate with
      | none => simp [notifications, hp, ih]
      | some p =>
        by_cases h1 : daysUntil p now = 1
        · simp [notifications, hp, h1, ih]
        · by_cases h7 : daysUntil p now = 7
          · simp [notifications, hp, h1, h7, ih]
          · simp [notifications, hp, h1, h7, ih]
  · intro now T
    have h1 : daysUntil (now + 86400) now = 1 := by
      have := hday now 1
      simpa using this
    simp [notifications, h1]
  · intro now T
    have h2 : daysUntil (now + 2 * 86400) now = 2 := hday now 2
    have h2' : daysUntil (now + 172800) now = 2 := by simpa using h2
    refine ⟨h2, ?_⟩
    simp [notifications, h2']
  · intro now T
    have h7 : daysUntil (now + 7 * 86400) now = 7 := hday now 7
    have h7' : daysUntil (now + 604800) now = 7 := by simpa using h7
    simp [notifications, h7']

/-! ## C6: title round-trip -/

theorem rewriteTitle_lines (body t : String) (hnl : ∀ c ∈ t.data, c ≠ '\n') :
    linesOf (rewriteTitle body t) =
      ('#' :: ' ' :: t.data) :: [] ::
        (if ((linesOf body).filter (fun ℓ => !startsHash ℓ)) = [] then [[]]
         else (linesOf body).filter (fun ℓ => !startsHash ℓ)) := by
  have hxs : ∀ x ∈ '#' :: ' ' :: t.data, isNL x = false := by
    intro x hx
    rcases List.mem_cons.mp hx with rfl | hx
    · decide
    rcases List.mem_cons.mp hx with rfl | hx
    · decide
    · simp [isNL, hnl x hx]
  have hdata : (rewriteTitle body t).data
      = ('#' :: ' ' :: t.data) ++ '\n' ::
          ('\n' :: joinNL ((linesOf body).filter (fun ℓ => !startsHash ℓ))) := by
    simp [rewriteTitle]
  show splitOnPCh isNL (rewriteTitle body t).data = _
  rw [hdata, splitOnPCh_append isNL _ '\n' _ hxs (by decide),
    splitOnPCh_cons_pos isNL '\n' _ (by decide)]
  cases hfl : (linesOf body).filter (fun ℓ => !startsHash ℓ) with
  | nil => simp [joinNL, splitOnPCh]
  | cons f fs =>
    rw [if_neg (by simp)]
    have hjoin : splitOnPCh isNL (joinNL (f :: fs)) = f :: fs := by
      apply splitOnPCh_joinNL _ (by simp)
      intro ℓ hℓ c hc
      have hmem : ℓ ∈ (linesOf body).filter (fun ℓ => !startsHash ℓ) := by
        rw [hfl]
        exact hℓ
      exact splitOnPCh_mem_no_p isNL body.data ℓ (List.mem_filter.mp hmem).1 c hc
    rw [hjoin]

theorem rewriteTitle_title (body t : String) (htne : t ≠ "")
    (hnl : ∀ c ∈ t.data, c ≠ '\n') (hstrip : pyStripL t.data = t.data) :
    (linesOf (rewriteTitle body t)).find? isHeadingB = some ('#' :: ' ' :: t.data)
    ∧ extract_title (rewriteTitle body t) = t := by
  have htd : t.data ≠ [] := by
    intro hh
    apply htne
    cases t with
    | mk d =>
      simp at hh
      subst hh
      rfl
  have hhead : isHeadingB ('#' :: ' ' :: t.data) = true := by
    cases hdd : t.data with
    | nil => exact absurd hdd htd
    | cons c cs => rfl
  have hfind : (linesOf (rewriteTitle body t)).find? isHeadingB
      = some ('#' :: ' ' :: t.data) := by
    rw [rewriteTitle_lines body t hnl]
    exact List.find?_cons_of_pos _ hhead
  refine ⟨hfind, ?_⟩
  unfold extract_title
  rw [hfind]
  show (⟨pyStripL (('#' :: ' ' :: t.data).drop 2)⟩ : String) = t
  have hdrop : ('#' :: ' ' :: t.data).drop 2 = t.data := rfl
  rw [hdrop, hstrip]

theorem get_article_info_title (id : String) (c : String) (ov : Overlay) :
    (get_article_info id (some c) ov).1.title
      = if c = "" then ("Untitled") else extract_title c := rfl

/-- C6 counterexample: an empty — but supplied — title is falsy in Python,
so the rewrite step is skipped entirely: the body is stored unchanged with
no heading prepended and the derived title is `"Untitled"`, not the
supplied (empty) title. -/
theorem save_empty_title_counterexample :
    (save_article ("a") (some ("")) (some ("hello")) none none none none emptyState).1.title
      = "Untitled"
  ∧ ("Untitled" : String) ≠ ""
  ∧ alookup (save_article ("a") (some ("")) (some ("hello")) none none none none emptyState).2.files ("a")
      = some ("hello") := by
  refine ⟨by decide, by decide, by decide⟩

/-- C6 (amended): for every supplied title that is non-empty, newline-free
and equal to its own whitespace-trim, save(id, title, body) persists the
rewritten body — a heading line `"# " ++ title`, a blank line, then the
newline-join of the original lines with every line starting with `'# '`
removed — whose first top-level heading line is `"# " ++ title`, and both
the returned view and a subsequent get derive exactly that title. -/
theorem title_roundtrip_spec :
    ∀ (st : ServerState) (id body t : String),
      t ≠ "" → (∀ c ∈ t.data, c ≠ '\n') → pyStripL t.data = t.data →
      alookup (save_article id (some t) (some body) none none none none st).2.files id
          = some (rewriteTitle body t)
    ∧ (rewriteTitle body t).data
        = '#' :: ' ' :: (t.data ++ '\n' :: '\n' ::
            joinNL ((linesOf body).filter (fun ℓ => !startsHash ℓ)))
    ∧ (linesOf (rewriteTitle body t)).find? isHeadingB = some ('#' :: ' ' :: t.data)
    ∧ extract_title (rewriteTitle body t) = t
    ∧ (save_article id (some t) (some body) none none none none st).1.title = t
    ∧ ∃ a, (get_article id (save_article id (some t) (some body) none none none none st).2).1
          = some a
        ∧ a.title = t := by
  intro st id body t htne hnl hstrip
  have hfile : (save_article id (some t) (some body) none none none none st).2.files
      = aupdate st.files id (rewriteTitle body t) := by
    simp [save_article, htne]
  have halook : alookup (save_article id (some t) (some body) none none none none st).2.files id
      = some (rewriteTitle body t) := by
    rw [hfile]
    exact alookup_aupdate_self _ _ _
  have hrt := rewriteTitle_title body t htne hnl hstrip
  have hne0 : rewriteTitle body t ≠ "" := by
    intro hh
    have h2 := congrArg String.data hh
    simp [rewriteTitle] at h2
  have htitle : (save_article id (some t) (some body) none none none none st).1.title = t := by
    have h1 : (save_article id (some t) (some body) none none none none st).1.title
        = if rewriteTitle body t = "" then ("Untitled")
          else extract_title (rewriteTitle body t) := by
      simp [save_article, htne, get_article_info, alookup_aupdate_self]
    rw [h1, if_neg hne0, hrt.2]
  refine ⟨halook, by simp [rewriteTitle], hrt.1, hrt.2, htitle, ?_⟩
  refine ⟨(get_article_info id (some (rewriteTitle body t))
      (save_article id (some t) (some body) none none none none st).2.meta).1, ?_, ?_⟩
  · simp [get_article, halook]
  · rw [get_article_info_title, if_neg hne0, hrt.2]

/-- C6 witness: saving a body with a pre-existing heading under the new
title `"T1"` round-trips: the stored first heading line carries `"T1"` and
the derived title equals `"T1"`. -/
theorem title_roundtrip_spec_witness :
    (save_article ("a") (some ("T1")) (some ("intro\n# Old\nrest")) none none none none emptyState).1.title
      = "T1"
  ∧ extract_title (rewriteTitle ("intro\n# Old\nrest") ("T1")) = "T1" :=
  ⟨(title_roundtrip_spec emptyState ("a") ("intro\n# Old\nrest") ("T1")
      (by decide) (by decide) (by decide)).2.2.2.2.1,
   (title_roundtrip_spec emptyState ("a") ("intro\n# Old\nrest") ("T1")
      (by decide) (by decide) (by decide)).2.2.2.1⟩

/-! ## C1: bulk scheduling -/

theorem replaceDay_eq (cur : PyDateTime) (k : Nat) (h1 : 1 ≤ cur.day)
    (h2 : cur.day + k ≤ daysInMonth cur.year cur.month) :
    replaceDay cur ((cur.day : Int) + (k : Int)) = some (dayPlus cur k) := by
  unfold replaceDay
  rw [if_pos (by constructor <;> omega)]
  rw [show ((cur.day : Int) + (k : Int)).toNat = cur.day + k from by omega]
  rfl

theorem bulkGo_pres :
    ∀ (ids : List String) (cur : PyDateTime) (i : Int) (ov : Overlay) (x : String),
      x ∉ ids → (bulkGo ids cur i ov).2 x = ov x := by
  intro ids
  induction ids with
  | nil => intro cur i ov x _; rfl
  | cons id rest ih =>
    intro cur i ov x hx
    have hxid : x ≠ id := fun hh => hx (hh ▸ List.mem_cons_self id rest)
    have hxrest : x ∉ rest := fun hh => hx (List.mem_cons_of_mem id hh)
    have hov2 : saveMeta id
        { (loadMeta id ov).1 with
          status := ("scheduled"),
          publishDate := some (isoMinute cur) } (loadMeta id ov).2 x = ov x := by
      rw [saveMeta_other _ _ _ _ hxid, loadMeta_other _ _ _ hxid]
    rw [bulkGo_snd]
    cases hrd : replaceDay cur ((cur.day : Int) + i) with
    | none => exact hov2
    | some cur2 => exact (ih cur2 i _ x hxrest).trans hov2

theorem bulkGo_ok :
    ∀ (ids : List String) (cur : PyDateTime) (k : Nat) (ov : Overlay),
      ids.Nodup → 1 ≤ cur.day →
      cur.day + ids.length * k ≤ daysInMonth cur.year cur.month →
      ∃ rs ov3, bulkGo ids cur (k : Int) ov = (some rs, ov3)
        ∧ rs.length = ids.length
        ∧ (∀ j, j < ids.length → ∀ a, ids.get? j = some a →
            rs.get? j = some (a, isoMinute (dayPlus cur (j * k))))
        ∧ (∀ j, j < ids.length → ∀ a, ids.get? j = some a →
            ∃ r, ov3 a = some r ∧ r.status = ("scheduled")
              ∧ r.publishDate = some (isoMinute (dayPlus cur (j * k)))) := by
  intro ids
  induction ids with
  | nil =>
    intro cur k ov _ _ _
    refine ⟨[], ov, rfl, rfl, ?_, ?_⟩ <;>
      exact fun j hj => absurd hj (Nat.not_lt_zero j)
  | cons id rest ih =>
    intro cur k ov hnd h1 hbound
    have hexp : (id :: rest).length * k = rest.length * k + k := by
      simp [List.length_cons, Nat.succ_mul]
    rw [hexp] at hbound
    have hstep : cur.day + k ≤ daysInMonth cur.year cur.month := by omega
    have hrd : replaceDay cur ((cur.day : Int) + (k : Int)) = some (dayPlus cur k) :=
      replaceDay_eq cur k h1 hstep
    have hnd' : rest.Nodup := (List.nodup_cons.mp hnd).2
    have hid : id ∉ rest := (List.nodup_cons.mp hnd).1
    have h1' : 1 ≤ (dayPlus cur k).day := by
      simp [dayPlus]
      omega
    have hb2 : (dayPlus cur k).day + rest.length * k
        ≤ daysInMonth (dayPlus cur k).year (dayPlus cur k).month := by
      simp [dayPlus]
      omega
    obtain ⟨rs', ov3', heq', hlen', hres', hmeta'⟩ :=
      ih (dayPlus cur k) k
        (saveMeta id
          { (loadMeta id ov).1 with
            status := ("scheduled"),
            publishDate := some (isoMinute cur) } (loadMeta id ov).2)
        hnd' h1' hb2
    have main : bulkGo (id :: rest) cur (k : Int) ov
        = (some ((id, isoMinute cur) :: rs'), ov3') := by
      simp only [bulkGo, hrd, heq']
    have hday0 : dayPlus cur 0 = cur := by
      simp [dayPlus]
    refine ⟨(id, isoMinute cur) :: rs', ov3', main, by simp [hlen'], ?_, ?_⟩
    · intro j hj a ha
      cases j with
      | zero =>
        simp only [List.get?_cons_zero, Option.some.injEq] at ha
        subst ha
        simp [Nat.zero_mul, hday0]
      | succ j' =>
        have hj' : j' < rest.length := by
          simp only [List.length_cons] at hj
          omega
        have ha' : rest.get? j' = some a := by simpa using ha
        have hcomp : dayPlus (dayPlus cur k) (j' * k) = dayPlus cur ((j' + 1) * k) := by
          simp [dayPlus]
          ring
        have := hres' j' hj' a ha'
        simpa [hcomp] using this
    · intro j hj a ha
      cases j with
      | zero =>
        simp only [List.get?_cons_zero, Option.some.injEq] at ha
        subst ha
        have hpres := bulkGo_pres rest (dayPlus cur k) (k : Int)
          (saveMeta id
            { (loadMeta id ov).1 with
              status := ("scheduled"),
              publishDate := some (isoMinute cur) } (loadMeta id ov).2) id hid
        rw [heq'] at hpres
        refine ⟨{ (loadMeta id ov).1 with
                  status := ("scheduled"),
                  publishDate := some (isoMinute cur) }, ?_, rfl, ?_⟩
        · exact hpres.trans (saveMeta_self _ _ _)
        · simp [Nat.zero_mul, hday0]
      | succ j' =>
        have hj' : j' < rest.length := by
          simp only [List.length_cons] at hj
          omega
        have ha' : rest.get? j' = some a := by simpa using ha
        have hcomp : dayPlus (dayPlus cur k) (j' * k) = dayPlus cur ((j' + 1) * k) := by
          simp [dayPlus]
          ring
        have := hmeta' j' hj' a ha'
        simpa [hcomp] using this

/-- C1 counterexample: scheduling two articles from 2024-01-31 with a
one-day interval — the naive `replace(day = day + intervalDays)` raises
`ValueError` (day 32 is out of range for January), so the request fails and
the claim's answer `[(a, D), (b, D + 1 day)]` never materialises. -/
theorem bulkSchedule_month_boundary_counterexample :
    (bulkSchedule [("a"), ("b")]
        (some { year := 2024, month := 1, day := 31, hour := 10, minute := 0, second := 0 })
        1 emptyOverlay).1
      = Except.error ("day is out of range for month")
  ∧ (bulkSchedule [("a"), ("b")]
        (some { year := 2024, month := 1, day := 31, hour := 10, minute := 0, second := 0 })
        1 emptyOverlay).1
      ≠ Except.ok [(("a"), ("2024-01-31T10:00")), (("b"), ("2024-02-01T10:00"))] := by
  have h1 : (bulkSchedule [("a"), ("b")]
      (some { year := 2024, month := 1, day := 31, hour := 10, minute := 0, second := 0 })
      1 emptyOverlay).1
      = Except.error ("day is out of range for month") := rfl
  refine ⟨h1, ?_⟩
  rw [h1]
  exact fun h => Except.noConfusion h

/-- C1 (amended): an empty id list or an absent start date is rejected with
the invalid-request error; for distinct ids, a nonnegative interval, and a
start date whose naive day-of-month increments all stay inside the start
month (day + ids.length · intervalDays within the month's length), the
operation returns one (id, publishDate) pair per id in input order, the
j-th id receiving the start date advanced by j · intervalDays days and
truncated to minute precision, and every listed id's metadata record ends
with status `scheduled` and exactly that publish date.  (When an increment
leaves the month's valid day range, the operation instead fails with an
uncaught day-out-of-range error, as the counterexample shows.) -/
theorem bulkSchedule_spec :
    (∀ (ids : List String) (i : Int) (ov : Overlay),
        bulkSchedule ids none i ov
          = (Except.error ("Articles and start date required"), ov))
  ∧ (∀ (d : PyDateTime) (i : Int) (ov : Overlay),
        bulkSchedule [] (some d) i ov
          = (Except.error ("Articles and start date required"), ov))
  ∧ (∀ (ids : List String) (d : PyDateTime) (k : Nat) (ov : Overlay),
        ids ≠ [] → ids.Nodup → 1 ≤ d.day →
        d.day + ids.length * k ≤ daysInMonth d.year d.month →
        ∃ rs, (bulkSchedule ids (some d) (k : Int) ov).1 = Except.ok rs
          ∧ rs.length = ids.length
          ∧ (∀ j, j < ids.length → ∀ a, ids.get? j = some a →
              rs.get? j = some (a, isoMinute (dayPlus d (j * k))))
          ∧ (∀ j, j < ids.length → ∀ a, ids.get? j = some a →
              ∃ r, (bulkSchedule ids (some d) (k : Int) ov).2 a = some r
                ∧ r.status = ("scheduled")
                ∧ r.publishDate = some (isoMinute (dayPlus d (j * k))))) := by
  refine ⟨fun ids i ov => rfl, fun d i ov => rfl, ?_⟩
  intro ids d k ov hne hnd h1 hb
  obtain ⟨rs, ov3, heq, hlen, hres, hmeta⟩ := bulkGo_ok ids d k ov hnd h1 hb
  have hbs : bulkSchedule ids (some d) (k : Int) ov = (Except.ok rs, ov3) := by
    simp [bulkSchedule, hne, heq]
  refine ⟨rs, by rw [hbs], hlen, hres, ?_⟩
  intro j hj a ha
  rw [hbs]
  exact hmeta j hj a ha

/-- C1 witness: three distinct ids scheduled from 2024-01-01T09:30 with a
two-day interval — pairs come back in order at minute precision two days
apart, and the second id's metadata carries its assigned date. -/
theorem bulkSchedule_spec_witness :
    (bulkSchedule [("a"), ("b"), ("c")]
        (some { year := 2024, month := 1, day := 1, hour := 9, minute := 30, second := 0 })
        ((2 : Nat) : Int) emptyOverlay).1
      = Except.ok [(("a"), ("2024-01-01T09:30")), (("b"), ("2024-01-03T09:30")),
          (("c"), ("2024-01-05T09:30"))]
  ∧ ∃ r, (bulkSchedule [("a"), ("b"), ("c")]
        (some { year := 2024, month := 1, day := 1, hour := 9, minute := 30, second := 0 })
        ((2 : Nat) : Int) emptyOverlay).2 ("b") = some r
      ∧ r.status = ("scheduled")
      ∧ r.publishDate = some (isoMinute (dayPlus
          { year := 2024, month := 1, day := 1, hour := 9, minute := 30, second := 0 } (1 * 2))) := by
  constructor
  · rfl
  · obtain ⟨rs, hok, hlen, hres, hmeta⟩ := bulkSchedule_spec.2.2 [("a"), ("b"), ("c")]
      { year := 2024, month := 1, day := 1, hour := 9, minute := 30, second := 0 }
      2 emptyOverlay (by decide) (by decide) (by decide) (by decide)
    exact hmeta 1 (by decide) ("b") (by decide)
